import Mathlib

/-!
Verification of the retrieval pipeline of `simple_agent_llm`.

This file is a shallow embedding of the retrieval/reranking subsystem of the
repository, chiefly `tools.py` (class `PineconeSearchTool`) and `main.py`
(`rerank_by_embedding`, `rerank_by_cross_encoder`, `retrieve_union`,
`generate_llm_variants`, `_fallback_variants`).

Modelling conventions:
* Python machine floats are modelled as `ℚ`; `np.linalg.norm` is an opaque
  parameter `norm : List ℚ → ℚ` (its numeric value is irrelevant to every
  property below, only the `norm v != 0` guard in the source matters).
* A Python exception is `Except.error ()`; fallible collaborators (the
  Pinecone retriever, the embedding model, the cross-encoder) are functions
  into `Except Unit _`.
* Python's built-in `hash` of a string is seeded per process; the code only
  relies on equal strings having equal hashes, so it is modelled as an
  arbitrary function `h : String → Int` applied to the trimmed text.
* Python list slicing `l[:m]` (including negative `m`) is `pyTake`;
  `l[:None]` is `pySlice none`.
* `x or y` on optional ints / strings (`None` and `0` / `""` falsy) is
  `pyOrInt` / `pyOrStr`.
* `list.sort(key=lambda x: x[0], reverse=True)` is a stable descending sort
  on the first component; it is modelled by `List.mergeSort` (stable) with
  the boolean relation `scoreDescLe`.
-/

/-- Python slice `l[:m]` for an integer `m`: non-negative `m` takes the first
`m` elements, negative `m` drops the last `|m|` elements. -/
def pyTake {α : Type} (m : Int) (l : List α) : List α :=
  if 0 ≤ m then l.take m.toNat else l.take (l.length - (-m).toNat)

/-- Python slice `l[:m]` where `m` may be `None` (`l[:None] = l`). -/
def pySlice {α : Type} (m : Option Int) (l : List α) : List α :=
  match m with
  | none => l
  | some i => pyTake i l

/-- Python `a or b` for an optional int `a`: `None` and `0` are falsy. -/
def pyOrInt (a : Option Int) (b : Int) : Int :=
  match a with
  | none => b
  | some x => if x = 0 then b else x

/-- Python `a or b` for an optional string `a`: `None` and `""` are falsy. -/
def pyOrStr (a : Option String) (b : String) : String :=
  match a with
  | none => b
  | some s => if s = "" then b else s

/-- Python `a or b` for two strings (`""` falsy). -/
def pyOrStrS (a b : String) : String :=
  if a = "" then b else a

/-- Python `s.strip()`: remove leading and trailing whitespace. Implemented
by structural recursion over the character list so that concrete instances
evaluate inside the kernel (`String.trim` is extensionally the same but is
defined through well-founded recursion). -/
def pyStrip (s : String) : String :=
  String.mk (((s.data.dropWhile Char.isWhitespace).reverse.dropWhile
    Char.isWhitespace).reverse)

/-- Python `s.lower()` (character-wise, as `String.toLower`). -/
def pyLower (s : String) : String :=
  String.mk (s.data.map Char.toLower)

/-- Python `s.upper()` (character-wise, as `String.toUpper`). -/
def pyUpper (s : String) : String :=
  String.mk (s.data.map Char.toUpper)

/-- Test for the `Except` success case (models "the call did not raise"). -/
def exceptIsOk {ε α : Type} (e : Except ε α) : Bool :=
  match e with
  | .ok _ => true
  | .error _ => false

/-- Value of an `Except`, with `[]`-like default on error (used only to
describe the stream of successfully retrieved batches in theorem statements). -/
def okD {ε α : Type} (e : Except ε (List α)) : List α :=
  match e with
  | .ok l => l
  | .error _ => []

/-- A retrieved passage: `langchain` `Document` with `page_content` and the
metadata keys this code base reads or writes (`source`, `page`, `score`,
`rerank_score`, `rerank_method`). -/
structure Passage where
  text : String
  source : String
  page : Option Int
  metaScore : Option ℚ
  rerankScore : Option ℚ
  rerankMethod : Option String
deriving DecidableEq, Repr

/-- The `SearchResult` dataclass of `tools.py`. -/
structure SearchResult where
  content : String
  source : String
  page : Option Int
  score : ℚ
  rerankScore : Option ℚ
deriving DecidableEq, Repr

/-- The embedding model: `embed_query` / `embed_documents`, each of which may
raise. -/
structure Embedder where
  embedQuery : String → Except Unit (List ℚ)
  embedDocs : List String → Except Unit (List (List ℚ))

/-- A constructed cross-encoder model: `predict` on (query, passage) pairs,
which may raise. -/
abbrev CEModel := List (String × String) → Except Unit (List ℚ)

/-- Dot product, `float(np.dot(v, w))`. -/
def dot (v w : List ℚ) : ℚ :=
  (List.zipWith (· * ·) v w).sum

/-- Python `round(x, 6)`. -/
def round6 (x : ℚ) : ℚ :=
  (round (x * 1000000) : ℤ) / 1000000

/-- The normalization step of both rerankers: divide by the norm unless the
norm is zero (`if np.linalg.norm(v) != 0: v = v / np.linalg.norm(v)`). -/
def normalizeVec (norm : List ℚ → ℚ) (v : List ℚ) : List ℚ :=
  if norm v ≠ 0 then v.map (· / norm v) else v

/-- Division that treats a zero divisor as a failure. -/
def safeDiv (x y : ℚ) : Option ℚ :=
  if y = 0 then none else some (x / y)

/-- Element-wise fallible map: fails when `f` fails on any element. -/
def mapOption {α β : Type} (f : α → Option β) : List α → Option (List β)
  | [] => some []
  | x :: xs =>
    match f x, mapOption f xs with
    | some y, some ys => some (y :: ys)
    | _, _ => none

/-- The normalization step with every division checked: returns `none` if a
division by zero would be performed. -/
def normalizeVecChecked (norm : List ℚ → ℚ) (v : List ℚ) : Option (List ℚ) :=
  if norm v ≠ 0 then mapOption (fun x => safeDiv x (norm v)) v else some v

/-- Stable descending comparison on the score component; together with the
stability of `List.mergeSort` this models Python's
`sort(key=lambda x: x[0], reverse=True)`. -/
def scoreDescLe {β : Type} (a b : ℚ × β) : Bool :=
  decide (b.1 ≤ a.1)

/-- Python's `scored.sort(key=lambda x: x[0], reverse=True)`. -/
def sortByScoreDesc {β : Type} (l : List (ℚ × β)) : List (ℚ × β) :=
  l.mergeSort scoreDescLe

/-- Deduplication key of a passage: `hash((d.page_content or "").strip())`
for the process's string hash `h`. -/
def pkey (h : String → Int) (d : Passage) : Int :=
  h (pyStrip d.text)

/-- One pass of the collection loops of `_retrieve_with_variants` /
`retrieve_union`: keep each passage whose key is not yet in `seen`. -/
def dedupSeen (h : String → Int) (seen : List Int) : List Passage → List Passage
  | [] => []
  | d :: ds =>
    if pkey h d ∈ seen then dedupSeen h seen ds
    else d :: dedupSeen h (pkey h d :: seen) ds

/-- The `seen` set after processing one retrieved batch. -/
def seenAfter (h : String → Int) (seen : List Int) : List Passage → List Int
  | [] => seen
  | d :: ds =>
    if pkey h d ∈ seen then seenAfter h seen ds
    else seenAfter h (pkey h d :: seen) ds

/-- The union-with-deduplication collection loop shared by
`PineconeSearchTool._retrieve_with_variants` and `main.retrieve_union`:
per-variant retrieval failures are caught (`except: continue`), successful
batches are appended after deduplication by trimmed-text hash. -/
def collectUnion (h : String → Int) (retrieve : String → Except Unit (List Passage)) :
    List String → List Int → List Passage
  | [], _ => []
  | q :: qs, seen =>
    match retrieve q with
    | .error _ => collectUnion h retrieve qs seen
    | .ok docs => dedupSeen h seen docs ++ collectUnion h retrieve qs (seenAfter h seen docs)

/-- The concatenated stream of successfully retrieved batches, in variant
order (a failing variant contributes nothing). -/
def flattenOk (retrieve : String → Except Unit (List Passage)) (qs : List String) :
    List Passage :=
  (qs.map (fun q => okD (retrieve q))).flatten

namespace Tools

/-- Runtime state of `PineconeSearchTool`: the mock flag, the configured
defaults, and the external collaborators (retriever, embedding model,
cross-encoder getter, vector norm, string hash). -/
structure Tool where
  useMock : Bool
  retrievalK : Int
  defaultNamespace : String
  retriever : Int → String → String → Except Unit (List Passage)
  embedder : Embedder
  getCE : Except Unit CEModel
  norm : List ℚ → ℚ
  hash : String → Int

/-- The fixed mock corpus of `PineconeSearchTool.__init__` (as `SearchResult`s). -/
def mock_results : List SearchResult :=
  [{ content := "Procedimento de reembolso: colaboradores devem abrir chamado no sistema interno e anexar recibos da viagem.",
     source := "Manual de Viagens", page := some 2, score := 92/100, rerankScore := none },
   { content := "Política de férias: o pedido deve ser aprovado pelo gestor e registrado no RH com 30 dias de antecedência.",
     source := "Política de Férias", page := some 5, score := 88/100, rerankScore := none }]

/-- Conversion of a mock `SearchResult` to a `Document`
(`Document(page_content=result.content, metadata=result.metadata)`); the
metadata dict has only `source` and `page` keys, no initial score. -/
def resultToDoc (r : SearchResult) : Passage :=
  { text := r.content, source := r.source, page := r.page,
    metaScore := none, rerankScore := none, rerankMethod := none }

/-- The mock corpus as `Document`s. -/
def mock_documents : List Passage :=
  mock_results.map resultToDoc

/-- `PineconeSearchTool._generate_query_variants`. -/
def generate_query_variants (query : String) (n : Int) : List String :=
  let variants := [query]
  let q_lower := pyStrip (pyLower query)
  let q_upper := pyStrip (pyUpper query)
  let variants := if q_lower ∈ variants then variants else variants ++ [q_lower]
  let variants :=
    if q_upper ∉ variants ∧ (variants.length : Int) < n then variants ++ [q_upper]
    else variants
  pyTake n variants

/-- `PineconeSearchTool._retrieve_with_variants`: the mock corpus in mock
mode, otherwise the union-deduplication loop over the variants. -/
def retrieve_with_variants (t : Tool) (queries : List String) (k : Int) (ns : String) :
    List Passage :=
  if t.useMock then mock_documents
  else collectUnion t.hash (t.retriever k ns) queries []

/-- `PineconeSearchTool._rerank_by_embedding`: embed, normalize (zero norms
left alone), score by dot product, stable-sort descending, truncate,
annotate. Exceptions of the embedding model propagate. -/
def rerank_by_embedding (t : Tool) (query : String) (docs : List Passage)
    (top_k : Option Int) : Except Unit (List Passage) :=
  if docs = [] then .ok docs
  else
    match t.embedder.embedQuery query with
    | .error e => .error e
    | .ok query_vector =>
      match t.embedder.embedDocs (docs.map (fun d => d.text)) with
      | .error e => .error e
      | .ok doc_vectors =>
        let qv := normalizeVec t.norm query_vector
        let ndvs := doc_vectors.map (normalizeVec t.norm)
        let scores := ndvs.map (fun dv => dot qv dv)
        let scored_docs := List.zip scores docs
        let top := pySlice top_k (sortByScoreDesc scored_docs)
        .ok (top.map (fun sd =>
          { sd.2 with rerankScore := some (round6 sd.1), rerankMethod := some "embedding" }))

/-- `PineconeSearchTool._rerank_by_cross_encoder`: the whole body is inside
`try`; any failure of the scorer (construction or `predict`) falls back to
`_rerank_by_embedding` with the same arguments. -/
def rerank_by_cross_encoder (t : Tool) (query : String) (docs : List Passage)
    (top_k : Option Int) : Except Unit (List Passage) :=
  if docs = [] then .ok docs
  else
    match (match t.getCE with
           | .error e => .error e
           | .ok m => m (docs.map (fun (d : Passage) => (query, d.text))) : Except Unit (List ℚ)) with
    | .error _ => rerank_by_embedding t query docs top_k
    | .ok scores =>
      let scored_docs := List.zip scores docs
      let top := pySlice top_k (sortByScoreDesc scored_docs)
      .ok (top.map (fun sd =>
        { sd.2 with rerankScore := some sd.1, rerankMethod := some "cross_encoder" }))

/-- Conversion of a reranked `Document` back to a `SearchResult`
(`score=doc.metadata.get("score", 0.0)`). -/
def docToSearchResult (d : Passage) : SearchResult :=
  { content := d.text, source := d.source, page := d.page,
    score := d.metaScore.getD 0, rerankScore := d.rerankScore }

/-- `PineconeSearchTool.search`: resolve defaults, expand the query, collect,
dispatch on the reranking method, convert. There is no enclosing
`try`/`except`; exceptions of the rerankers propagate. -/
def search (t : Tool) (query : String) (k : Option Int) (nspace : Option String)
    (rerank_method : String) (rerank_top_k : Option Int) :
    Except Unit (List SearchResult) :=
  let k := pyOrInt k t.retrievalK
  let ns := pyOrStr nspace (pyOrStrS t.defaultNamespace "default")
  let rtk := pyOrInt rerank_top_k k
  let query_variants := generate_query_variants query 3
  let docs := retrieve_with_variants t query_variants k ns
  if docs = [] then .ok []
  else
    let rm := pyLower rerank_method
    (if t.useMock then .ok (pyTake rtk docs)
     else if rm = "cross-encoder" then rerank_by_cross_encoder t query docs (some rtk)
     else if rm = "embedding" then rerank_by_embedding t query docs (some rtk)
     else .ok (pyTake rtk docs)).map
      (fun ds => ds.map docToSearchResult)

end Tools

namespace Main

/-- `main._fallback_variants` loop body: strip each candidate, append it when
non-empty and unseen, stop as soon as `n` variants are collected. -/
def fbLoop (n : Int) : List String → List String → List String
  | [], out => out
  | s :: rest, out =>
    let s := pyStrip s
    let out := if s ≠ "" ∧ s ∉ out then out ++ [s] else out
    if n ≤ (out.length : Int) then out else fbLoop n rest out

/-- `main._fallback_variants`: the stripped question followed by its case
variants, deduplicated and truncated to `n`. -/
def fallback_variants (question : String) (n : Int) : List String :=
  let q := pyStrip question
  fbLoop n ([q] ++ [pyLower q, pyUpper q]) []

/-- Characters stripped from each generated line,
`line.strip("•- \t")`. -/
def bulletChars : List Char :=
  ['•', '-', ' ', '\t']

/-- Python `s.strip(chars)`. -/
def stripSet (cs : List Char) (s : String) : String :=
  String.mk (((s.data.dropWhile (· ∈ cs)).reverse.dropWhile (· ∈ cs)).reverse)

/-- `main.generate_llm_variants`. The OpenAI client is modelled as
`Option (String → Except Unit String)`: `none` when no key is configured,
otherwise a fallible map from the question to the completion text. A blank
question returns `[]`; an absent or failing client falls back to
`fallback_variants`; otherwise the completion is split into lines, each line
stripped of bullets, and the stripped question is prepended when absent. -/
def generate_llm_variants (client : Option (String → Except Unit String))
    (question : String) (n : Int) : List String :=
  if question = "" ∨ pyStrip question = "" then []
  else
    match client with
    | none => fallback_variants question n
    | some c =>
      match c question with
      | .error _ => fallback_variants question n
      | .ok content =>
        let variants := (content.splitOn "\n").filterMap
          (fun line => if pyStrip line ≠ "" then some (stripSet bulletChars line) else none)
        let variants :=
          if pyStrip question ∈ variants then variants else pyStrip question :: variants
        pyTake n variants

/-- The scores computed by `main.rerank_by_embedding` from the raw query and
document vectors: L2-normalize (zero norms left alone) and take dot
products. -/
def embedScores (norm : List ℚ → ℚ) (qv : List ℚ) (dvs : List (List ℚ)) : List ℚ :=
  (dvs.map (normalizeVec norm)).map (fun dv => dot (normalizeVec norm qv) dv)

/-- The `scored_docs = list(zip(scores, range(len(docs)), docs))` list of
`main.rerank_by_embedding`. -/
def scoredList (norm : List ℚ → ℚ) (qv : List ℚ) (dvs : List (List ℚ))
    (docs : List Passage) : List (ℚ × ℕ × Passage) :=
  List.zip (embedScores norm qv dvs) (List.zip (List.range docs.length) docs)

/-- Annotation applied to each surviving entry of the embedding reranker. -/
def annotEmb (sd : ℚ × ℕ × Passage) : Passage :=
  { sd.2.2 with rerankScore := some (round6 sd.1), rerankMethod := some "embedding" }

/-- `main.rerank_by_embedding`. Exceptions of the embedding model
propagate. -/
def rerank_by_embedding (emb : Embedder) (norm : List ℚ → ℚ) (query : String)
    (docs : List Passage) (top_k : Option Int) : Except Unit (List Passage) :=
  if docs = [] then .ok docs
  else
    match emb.embedQuery query with
    | .error e => .error e
    | .ok query_vector =>
      match emb.embedDocs (docs.map (fun d => d.text)) with
      | .error e => .error e
      | .ok doc_vector =>
        let scored_docs := scoredList norm query_vector doc_vector docs
        let top_scored := pySlice top_k (sortByScoreDesc scored_docs)
        .ok (top_scored.map annotEmb)

/-- Annotation applied to each surviving entry of the cross-encoder
reranker (raw score, not rounded). -/
def annotCE (sd : ℚ × ℕ × Passage) : Passage :=
  { sd.2.2 with rerankScore := some sd.1, rerankMethod := some "cross_encoder" }

/-- `main.rerank_by_cross_encoder`: only the construction
`get_cross_encoder(model_name)` is guarded by `try`/`except`; the
`cross_model.predict(...)` call is outside it, so an exception raised by the
invocation propagates to the caller. -/
def rerank_by_cross_encoder (getCE : Except Unit CEModel) (emb : Embedder)
    (norm : List ℚ → ℚ) (query : String) (docs : List Passage)
    (top_k : Option Int) : Except Unit (List Passage) :=
  if docs = [] then .ok docs
  else
    match getCE with
    | .error _ => rerank_by_embedding emb norm query docs top_k
    | .ok cross_model =>
      match cross_model (docs.map (fun d => (query, d.text))) with
      | .error e => .error e
      | .ok scores =>
        let scored_docs := List.zip scores (List.zip (List.range docs.length) docs)
        let top_scored := pySlice top_k (sortByScoreDesc scored_docs)
        .ok (top_scored.map annotCE)

/-- `main.retrieve_union`: collect over the variants with per-variant failure
isolation, then dispatch on the reranking method. -/
def retrieve_union (h : String → Int)
    (retrieverF : Int → String → String → Except Unit (List Passage))
    (emb : Embedder) (getCE : Except Unit CEModel) (norm : List ℚ → ℚ)
    (queries : List String) (k : Int) (nspace : String)
    (rerank_method : Option String) (rerank_top_k : Option Int) :
    Except Unit (List Passage) :=
  let collected := collectUnion h (retrieverF k nspace) queries []
  let rm := pyLower (pyOrStr rerank_method "none")
  if rm = "none" then
    let final_top_k := pyOrInt rerank_top_k k
    .ok (if final_top_k ≠ 0 ∧ final_top_k < (collected.length : Int) then
           pyTake final_top_k collected
         else collected)
  else if rm = "embedding" then
    rerank_by_embedding emb norm (queries.headD "") collected rerank_top_k
  else if rm = "cross-encoder" then
    rerank_by_cross_encoder getCE emb norm (queries.headD "") collected rerank_top_k
  else
    .ok (match rerank_top_k with
         | none => collected
         | some i => if i = 0 then collected else pyTake i collected)

end Main

/-! Helper lemmas about the deduplicating collection loop. -/

theorem dedupSeen_sublist (h : String → Int) :
    ∀ (l : List Passage) (seen : List Int), List.Sublist (dedupSeen h seen l) l := by
  intro l
  induction l with
  | nil => intro seen; simp [dedupSeen]
  | cons d ds ih =>
    intro seen
    by_cases hd : pkey h d ∈ seen
    · simpa [dedupSeen, hd] using List.Sublist.cons d (ih seen)
    · simpa [dedupSeen, hd] using List.Sublist.cons₂ d (ih (pkey h d :: seen))

theorem pkey_not_mem_of_mem_dedupSeen (h : String → Int) :
    ∀ (l : List Passage) (seen : List Int) (x : Passage),
      x ∈ dedupSeen h seen l → pkey h x ∉ seen := by
  intro l
  induction l with
  | nil => intro seen x hx; simp [dedupSeen] at hx
  | cons d ds ih =>
    intro seen x hx
    by_cases hd : pkey h d ∈ seen
    · simp only [dedupSeen, if_pos hd] at hx
      exact ih seen x hx
    · simp only [dedupSeen, if_neg hd] at hx
      rcases List.mem_cons.mp hx with rfl | hx
      · exact hd
      · intro hmem
        exact ih (pkey h d :: seen) x hx (List.mem_cons_of_mem _ hmem)

theorem dedupSeen_pairwise (h : String → Int) :
    ∀ (l : List Passage) (seen : List Int),
      (dedupSeen h seen l).Pairwise (fun a b => pkey h a ≠ pkey h b) := by
  intro l
  induction l with
  | nil => intro seen; simp [dedupSeen]
  | cons d ds ih =>
    intro seen
    by_cases hd : pkey h d ∈ seen
    · simpa [dedupSeen, hd] using ih seen
    · simp only [dedupSeen, if_neg hd]
      refine List.Pairwise.cons ?_ (ih (pkey h d :: seen))
      intro b hb heq
      have := pkey_not_mem_of_mem_dedupSeen h ds (pkey h d :: seen) b hb
      exact this (heq ▸ List.mem_cons_self _ _)

theorem dedupSeen_first_occurrence (h : String → Int) :
    ∀ (l : List Passage) (seen : List Int) (x : Passage),
      x ∈ dedupSeen h seen l →
      ∃ l₁ l₂, l = l₁ ++ x :: l₂ ∧ ∀ y ∈ l₁, pkey h y ≠ pkey h x := by
  intro l
  induction l with
  | nil => intro seen x hx; simp [dedupSeen] at hx
  | cons d ds ih =>
    intro seen x hx
    by_cases hd : pkey h d ∈ seen
    · simp only [dedupSeen, if_pos hd] at hx
      obtain ⟨l₁, l₂, heq, hprev⟩ := ih seen x hx
      refine ⟨d :: l₁, l₂, by simp [heq], ?_⟩
      intro y hy
      rcases List.mem_cons.mp hy with rfl | hy
      · intro hk
        exact pkey_not_mem_of_mem_dedupSeen h ds seen x hx (hk ▸ hd)
      · exact hprev y hy
    · simp only [dedupSeen, if_neg hd] at hx
      rcases List.mem_cons.mp hx with rfl | hx
      · exact ⟨[], ds, rfl, by simp⟩
      · obtain ⟨l₁, l₂, heq, hprev⟩ := ih (pkey h d :: seen) x hx
        refine ⟨d :: l₁, l₂, by simp [heq], ?_⟩
        intro y hy
        rcases List.mem_cons.mp hy with heq | hy
        · intro hk
          apply pkey_not_mem_of_mem_dedupSeen h ds (pkey h d :: seen) x hx
          rw [← hk, heq]
          exact List.mem_cons_self _ _
        · exact hprev y hy

theorem dedupSeen_append (h : String → Int) :
    ∀ (l₁ l₂ : List Passage) (seen : List Int),
      dedupSeen h seen (l₁ ++ l₂) =
        dedupSeen h seen l₁ ++ dedupSeen h (seenAfter h seen l₁) l₂ := by
  intro l₁
  induction l₁ with
  | nil => intro l₂ seen; simp [dedupSeen, seenAfter]
  | cons d ds ih =>
    intro l₂ seen
    by_cases hd : pkey h d ∈ seen
    · simp [dedupSeen, seenAfter, hd, ih]
    · simp [dedupSeen, seenAfter, hd, ih]

theorem collectUnion_eq_dedup_flatten (h : String → Int)
    (r : String → Except Unit (List Passage)) :
    ∀ (qs : List String) (seen : List Int),
      collectUnion h r qs seen = dedupSeen h seen (flattenOk r qs) := by
  intro qs
  induction qs with
  | nil => intro seen; simp [collectUnion, flattenOk, dedupSeen]
  | cons q qs ih =>
    intro seen
    cases hr : r q with
    | error e =>
      simp [collectUnion, flattenOk, hr, okD, ih]
    | ok docs =>
      simp [collectUnion, flattenOk, hr, okD, ih, dedupSeen_append]

theorem collectUnion_filter_ok (h : String → Int)
    (r : String → Except Unit (List Passage)) :
    ∀ (qs : List String) (seen : List Int),
      collectUnion h r qs seen =
        collectUnion h r (qs.filter (fun q => exceptIsOk (r q))) seen := by
  intro qs
  induction qs with
  | nil => intro seen; simp [collectUnion]
  | cons q qs ih =>
    intro seen
    cases hr : r q with
    | error e =>
      simp [collectUnion, hr, List.filter_cons, exceptIsOk, ih]
    | ok docs =>
      simp [collectUnion, hr, List.filter_cons, exceptIsOk, ih]

/-! Helper lemmas about Python slicing and the stable descending sort. -/

theorem pyTake_of_nonneg {α : Type} (m : Int) (l : List α) (h : 0 ≤ m) :
    pyTake m l = l.take m.toNat := by
  simp [pyTake, h]

theorem length_pyTake_le_toNat {α : Type} (m : Int) (l : List α) (h : 0 ≤ m) :
    (pyTake m l).length ≤ m.toNat := by
  simp [pyTake, h]

theorem length_pyTake_of_nonneg {α : Type} (m : Int) (l : List α) (h : 0 ≤ m) :
    (pyTake m l).length = min m.toNat l.length := by
  simp [pyTake, h]

theorem scoreDescLe_trans {β : Type} (a b c : ℚ × β) :
    scoreDescLe a b → scoreDescLe b c → scoreDescLe a c := by
  simp only [scoreDescLe, decide_eq_true_eq]
  intro h1 h2
  exact le_trans h2 h1

theorem scoreDescLe_total {β : Type} (a b : ℚ × β) :
    scoreDescLe a b || scoreDescLe b a := by
  simp only [scoreDescLe]
  rcases le_total a.1 b.1 with h | h <;> simp [h]

theorem sortByScoreDesc_perm {β : Type} (l : List (ℚ × β)) :
    (sortByScoreDesc l).Perm l :=
  List.mergeSort_perm l scoreDescLe

theorem sortByScoreDesc_sorted {β : Type} (l : List (ℚ × β)) :
    (sortByScoreDesc l).Pairwise (fun a b => b.1 ≤ a.1) := by
  have := @List.sorted_mergeSort (ℚ × β) scoreDescLe scoreDescLe_trans scoreDescLe_total l
  exact this.imp (fun h => by simpa [scoreDescLe] using h)

theorem sublist_pair_of_mem {α : Type} {a b : α} : ∀ {l : List α}, a ∈ l → b ∈ l → a ≠ b →
    List.Sublist [a, b] l ∨ List.Sublist [b, a] l := by
  intro l
  induction l with
  | nil => intro h; simp at h
  | cons x t ih =>
    intro ha hb hne
    rcases List.mem_cons.mp ha with rfl | hat
    · rcases List.mem_cons.mp hb with rfl | hbt
      · exact absurd rfl hne
      · exact Or.inl (List.Sublist.cons₂ a (List.singleton_sublist.mpr hbt))
    · rcases List.mem_cons.mp hb with rfl | hbt
      · exact Or.inr (List.Sublist.cons₂ b (List.singleton_sublist.mpr hat))
      · exact (ih hat hbt hne).imp (List.Sublist.cons x) (List.Sublist.cons x)

theorem pair_sublist_antisymm {α : Type} {a b : α} (hne : a ≠ b) :
    ∀ {l : List α}, l.Nodup → List.Sublist [a, b] l → List.Sublist [b, a] l → False := by
  intro l
  induction l with
  | nil => intro _ h; cases h
  | cons x t ih =>
    intro hnd hab hba
    have hxt : x ∉ t := (List.nodup_cons.mp hnd).1
    have hndt : t.Nodup := (List.nodup_cons.mp hnd).2
    cases hab with
    | cons _ h1 =>
      cases hba with
      | cons _ h2 => exact ih hndt h1 h2
      | cons₂ _ h2 => exact hxt (h1.subset (by simp))
    | cons₂ _ h1 =>
      cases hba with
      | cons _ h2 => exact hxt (h2.subset (by simp))
      | cons₂ _ h2 => exact hne rfl

/-- Descending lexicographic order on (score, original position): strictly
greater score, or equal score and strictly smaller original position. This is
what "sorted by score descending with ties broken by original collection
order" means. -/
def scoreIdxLex {γ : Type} (a b : ℚ × ℕ × γ) : Prop :=
  b.1 < a.1 ∨ (a.1 = b.1 ∧ a.2.1 < b.2.1)

/-- Stability of the modelled Python sort: on a list whose second components
(original positions) are strictly increasing, the stable descending sort is
sorted in the descending lexicographic order `scoreIdxLex`. -/
theorem sortByScoreDesc_stable_lex {γ : Type} (l : List (ℚ × ℕ × γ))
    (hidx : l.Pairwise (fun a b => a.2.1 < b.2.1)) :
    (sortByScoreDesc l).Pairwise scoreIdxLex := by
  have hnd : l.Nodup :=
    hidx.imp (fun {a b} hlt heq => by rw [heq] at hlt; exact lt_irrefl _ hlt)
  have hperm := sortByScoreDesc_perm l
  have hout_nd : (sortByScoreDesc l).Nodup := (hperm.nodup_iff).mpr hnd
  have hsorted := sortByScoreDesc_sorted l
  rw [List.pairwise_iff_forall_sublist]
  intro a b hab
  have hba_le : b.1 ≤ a.1 := List.pairwise_iff_forall_sublist.mp hsorted hab
  rcases lt_or_eq_of_le hba_le with hlt | heq
  · exact Or.inl hlt
  · refine Or.inr ⟨heq.symm, ?_⟩
    have hne : a ≠ b := List.pairwise_iff_forall_sublist.mp hout_nd hab
    have ha : a ∈ l := hperm.subset (hab.subset (by simp))
    have hb : b ∈ l := hperm.subset (hab.subset (by simp))
    rcases sublist_pair_of_mem ha hb hne with h1 | h2
    · exact List.pairwise_iff_forall_sublist.mp hidx h1
    · exfalso
      have hle : scoreDescLe b a = true := by
        simp only [scoreDescLe, decide_eq_true_eq]
        exact le_of_eq heq.symm
      have hout : List.Sublist [b, a] (sortByScoreDesc l) :=
        List.pair_sublist_mergeSort scoreDescLe_trans scoreDescLe_total hle h2
      exact pair_sublist_antisymm hne hout_nd hab hout

/-! Concrete instances used by witnesses and counterexamples. -/

/-- Concrete stand-in for the process string hash (length-based). -/
def hLen : String → Int := fun s => (s.length : Int)

/-- Concrete passage with text "x". -/
def pA : Passage := { text := "x", source := "s1", page := none,
                      metaScore := none, rerankScore := none, rerankMethod := none }

/-- Concrete passage with text "yy". -/
def pB : Passage := { text := "yy", source := "s2", page := none,
                      metaScore := none, rerankScore := none, rerankMethod := none }

/-- Concrete passage whose text " x " trims to the text of `pA`. -/
def pA' : Passage := { text := " x ", source := "s3", page := none,
                       metaScore := none, rerankScore := none, rerankMethod := none }

/-- Concrete retriever: fails on the variant "bad", otherwise returns
`[pA, pA', pB]` (the second entry duplicates the first by trimmed text). -/
def rTwo : String → Except Unit (List Passage) :=
  fun q => if q = "bad" then .error () else .ok [pA, pA', pB]

/-- Concrete embedder that always raises. -/
def embFail : Embedder := ⟨fun _ => .error (), fun _ => .error ()⟩

/-- Concrete embedder that returns one-dimensional unit vectors. -/
def embOne : Embedder := ⟨fun _ => .ok [1], fun texts => .ok (texts.map (fun _ => [1]))⟩

/-- Concrete norm function that reports every vector as zero-norm. -/
def normZero : List ℚ → ℚ := fun _ => 0

/-- Concrete cross-encoder model whose invocation always raises. -/
def ceRaise : CEModel := fun _ => .error ()

/-- C3. For every sequence of query variants and every per-variant result
lists returned by the index, the collected passage sequence produced by union
multi-query retrieval contains at most one passage per distinct trimmed text
(pairwise distinct trimmed texts), each retained passage is the first
instance of its trimmed text in the retrieval stream (iterating variants in
order and each variant's results in order), and the collected sequence
preserves that first-seen order (it is a sublist of the stream). Holds for
every process hash `h` because equal strings hash equally. -/
theorem claim_C3 (h : String → Int) (retrieve : String → Except Unit (List Passage))
    (queries : List String) :
    List.Sublist (collectUnion h retrieve queries []) (flattenOk retrieve queries) ∧
    (collectUnion h retrieve queries []).Pairwise
      (fun a b => pyStrip a.text ≠ pyStrip b.text) ∧
    ∀ x ∈ collectUnion h retrieve queries [],
      ∃ l₁ l₂, flattenOk retrieve queries = l₁ ++ x :: l₂ ∧
        ∀ y ∈ l₁, pyStrip y.text ≠ pyStrip x.text := by
  rw [collectUnion_eq_dedup_flatten]
  refine ⟨dedupSeen_sublist h _ _, ?_, ?_⟩
  · exact (dedupSeen_pairwise h _ _).imp
      (fun {a b} hpk htr => hpk (by simp only [pkey, htr]))
  · intro x hx
    obtain ⟨l₁, l₂, heq, hprev⟩ := dedupSeen_first_occurrence h _ _ x hx
    exact ⟨l₁, l₂, heq, fun y hy htr => hprev y hy (by simp only [pkey, htr])⟩

/-- Witness for C3 at a concrete hash, retriever and variant list. -/
theorem claim_C3_witness :
    List.Sublist (collectUnion hLen rTwo ["a", "bad", "b"] []) (flattenOk rTwo ["a", "bad", "b"]) ∧
    (collectUnion hLen rTwo ["a", "bad", "b"] []).Pairwise
      (fun a b => pyStrip a.text ≠ pyStrip b.text) ∧
    ∀ x ∈ collectUnion hLen rTwo ["a", "bad", "b"] [],
      ∃ l₁ l₂, flattenOk rTwo ["a", "bad", "b"] = l₁ ++ x :: l₂ ∧
        ∀ y ∈ l₁, pyStrip y.text ≠ pyStrip x.text :=
  claim_C3 hLen rTwo ["a", "bad", "b"]

/-- C8. For every sequence of query variants, a variant whose retrieval
raises contributes zero passages and retrieval continues: the collected
result equals what would be collected from the non-failing variants alone.
No exception escapes the union-retrieval loop: `collectUnion` is total (its
result type is a plain list, mirroring the `try`/`except`/`continue` in the
source). -/
theorem claim_C8 (h : String → Int) (retrieve : String → Except Unit (List Passage))
    (queries : List String) :
    collectUnion h retrieve queries [] =
      collectUnion h retrieve (queries.filter (fun q => exceptIsOk (retrieve q))) [] :=
  collectUnion_filter_ok h retrieve queries []

/-! Normalization lemmas (C9). -/

theorem mapOption_safeDiv (c : ℚ) (hc : c ≠ 0) :
    ∀ (l : List ℚ), mapOption (fun x => safeDiv x c) l = some (l.map (· / c)) := by
  intro l
  induction l with
  | nil => rfl
  | cons x xs ih =>
    simp only [safeDiv, if_neg hc] at ih ⊢
    simp only [mapOption, safeDiv, if_neg hc, ih, List.map_cons]

theorem normalizeVecChecked_eq_some (norm : List ℚ → ℚ) (v : List ℚ) :
    normalizeVecChecked norm v = some (normalizeVec norm v) := by
  by_cases h : norm v = 0
  · simp [normalizeVecChecked, normalizeVec, h]
  · simp only [normalizeVecChecked, normalizeVec, ne_eq, h, not_false_eq_true, if_pos]
    exact mapOption_safeDiv (norm v) h v

/-- C9. During embedding reranking every vector is normalized by the guarded
division step `normalizeVec`, which leaves a vector with zero norm
unnormalized; the checked variant `normalizeVecChecked` (in which a division
by zero is an observable failure) always succeeds and agrees with it, so no
division by zero is ever performed. Consequently `rerank_by_embedding` (both
the `main.py` and the `tools.py` version) never fails on zero-norm query or
passage vectors: whenever the two embedding calls return (any vectors,
including all-zero ones, under any norm function), the reranker returns a
result and no exception escapes. -/
theorem claim_C9 :
    (∀ (norm : List ℚ → ℚ) (v : List ℚ),
       normalizeVecChecked norm v = some (normalizeVec norm v) ∧
       (norm v = 0 → normalizeVec norm v = v) ∧
       (norm v ≠ 0 → normalizeVec norm v = v.map (· / norm v))) ∧
    (∀ (emb : Embedder) (norm : List ℚ → ℚ) (query : String) (docs : List Passage)
       (top_k : Option Int) (qv : List ℚ) (dvs : List (List ℚ)),
       emb.embedQuery query = .ok qv →
       emb.embedDocs (docs.map (fun d => d.text)) = .ok dvs →
       ∃ out, Main.rerank_by_embedding emb norm query docs top_k = .ok out) ∧
    (∀ (t : Tools.Tool) (query : String) (docs : List Passage)
       (top_k : Option Int) (qv : List ℚ) (dvs : List (List ℚ)),
       t.embedder.embedQuery query = .ok qv →
       t.embedder.embedDocs (docs.map (fun d => d.text)) = .ok dvs →
       ∃ out, Tools.rerank_by_embedding t query docs top_k = .ok out) := by
  refine ⟨?_, ?_, ?_⟩
  · intro norm v
    refine ⟨normalizeVecChecked_eq_some norm v, ?_, ?_⟩
    · intro h; simp [normalizeVec, h]
    · intro h; simp [normalizeVec, h]
  · intro emb norm query docs top_k qv dvs hq hd
    by_cases hdocs : docs = []
    · exact ⟨docs, by simp [Main.rerank_by_embedding, hdocs]⟩
    · exact ⟨_, by rw [Main.rerank_by_embedding, if_neg hdocs, hq, hd]⟩
  · intro t query docs top_k qv dvs hq hd
    by_cases hdocs : docs = []
    · exact ⟨docs, by simp [Tools.rerank_by_embedding, hdocs]⟩
    · exact ⟨_, by rw [Tools.rerank_by_embedding, if_neg hdocs, hq, hd]⟩

/-- Witness for C9: a zero-norm situation — the all-zeros vector under a norm
function reporting 0 — is left unnormalized, the checked normalization
succeeds, and both rerankers succeed on a passage list embedded entirely to
zero vectors. -/
theorem claim_C9_witness :
    (normalizeVecChecked normZero [0, 0] = some (normalizeVec normZero [0, 0]) ∧
     (normZero [0, 0] = 0 → normalizeVec normZero [0, 0] = [0, 0]) ∧
     (normZero [0, 0] ≠ 0 → normalizeVec normZero [0, 0] = [0, 0].map (· / normZero [0, 0]))) ∧
    (∃ out, Main.rerank_by_embedding embOne normZero "q" [pA] (some 1) = .ok out) := by
  constructor
  · exact claim_C9.1 normZero [0, 0]
  · exact claim_C9.2.1 embOne normZero "q" [pA] (some 1) [1] [[1]] rfl rfl

/-- Concrete `Tool` whose cross-encoder constructs but raises on every
invocation, and whose embedder succeeds. -/
def tCE : Tools.Tool :=
  { useMock := false, retrievalK := 2, defaultNamespace := "default",
    retriever := fun _ _ _ => .ok [pA], embedder := embOne,
    getCE := .ok ceRaise, norm := normZero, hash := hLen }

/-- C1 (code-bug evidence). At the failing input — a cross-encoder scorer
whose construction succeeds but whose invocation (`predict`) raises on every
call, one passage, `top_k = 1` — `main.rerank_by_cross_encoder` propagates
the exception (`Except.error ()`) instead of degrading to the embedding
strategy, although `main.rerank_by_embedding` on the same input succeeds;
`tools.py`'s `_rerank_by_cross_encoder`, whose `try` covers the invocation,
does degrade to the embedding strategy on the same scorer. -/
theorem claim_C1 :
    Main.rerank_by_cross_encoder (.ok ceRaise) embOne normZero "q" [pA] (some 1) =
      .error () ∧
    Main.rerank_by_embedding embOne normZero "q" [pA] (some 1) =
      .ok [{ pA with rerankScore := some (round6 1), rerankMethod := some "embedding" }] ∧
    Tools.rerank_by_cross_encoder tCE "q" [pA] (some 1) =
      Tools.rerank_by_embedding tCE "q" [pA] (some 1) := by
  refine ⟨rfl, ?_, rfl⟩
  show Main.rerank_by_embedding embOne normZero "q" [pA] (some 1) = _
  simp only [Main.rerank_by_embedding, embOne, Main.scoredList, Main.embedScores]
  norm_num [normalizeVec, normZero, dot, sortByScoreDesc, List.range_succ, List.range_zero,
    List.mergeSort_singleton, pySlice, pyTake, Main.annotEmb]

/-! Helper lemmas for the variant generators (C7). -/

theorem headq_append_left {α : Type} (l₁ l₂ : List α) (h : l₁ ≠ []) :
    (l₁ ++ l₂).head? = l₁.head? := by
  cases l₁ with
  | nil => exact absurd rfl h
  | cons a t => simp

theorem fbLoop_nodup (n : Int) :
    ∀ (cands out : List String), out.Nodup → (Main.fbLoop n cands out).Nodup := by
  intro cands
  induction cands with
  | nil => intro out h; simpa [Main.fbLoop] using h
  | cons s rest ih =>
    intro out h
    simp only [Main.fbLoop]
    by_cases hc : pyStrip s ≠ "" ∧ pyStrip s ∉ out
    · have hout : (out ++ [pyStrip s]).Nodup := by
        simp [List.nodup_append, h, hc.2]
      rw [if_pos hc]
      by_cases hn : n ≤ ((out ++ [pyStrip s]).length : Int)
      · rw [if_pos hn]; exact hout
      · rw [if_neg hn]; exact ih _ hout
    · rw [if_neg hc]
      by_cases hn : n ≤ ((out.length : Int))
      · rw [if_pos hn]; exact h
      · rw [if_neg hn]; exact ih _ h

theorem fbLoop_ne_nil (n : Int) :
    ∀ (cands out : List String), out ≠ [] → Main.fbLoop n cands out ≠ [] := by
  intro cands
  induction cands with
  | nil => intro out h; simpa [Main.fbLoop] using h
  | cons s rest ih =>
    intro out h
    simp only [Main.fbLoop]
    by_cases hc : pyStrip s ≠ "" ∧ pyStrip s ∉ out
    · have hout : out ++ [pyStrip s] ≠ [] := by simp
      rw [if_pos hc]
      by_cases hn : n ≤ ((out ++ [pyStrip s]).length : Int)
      · rw [if_pos hn]; exact hout
      · rw [if_neg hn]; exact ih _ hout
    · rw [if_neg hc]
      by_cases hn : n ≤ ((out.length : Int))
      · rw [if_pos hn]; exact h
      · rw [if_neg hn]; exact ih _ h

theorem fbLoop_head (n : Int) :
    ∀ (cands out : List String), out ≠ [] → (Main.fbLoop n cands out).head? = out.head? := by
  intro cands
  induction cands with
  | nil => intro out _; simp [Main.fbLoop]
  | cons s rest ih =>
    intro out h
    simp only [Main.fbLoop]
    by_cases hc : pyStrip s ≠ "" ∧ pyStrip s ∉ out
    · have hout : out ++ [pyStrip s] ≠ [] := by simp
      rw [if_pos hc]
      by_cases hn : n ≤ ((out ++ [pyStrip s]).length : Int)
      · rw [if_pos hn]; exact headq_append_left out [pyStrip s] h
      · rw [if_neg hn]; rw [ih _ hout]; exact headq_append_left out [pyStrip s] h
    · rw [if_neg hc]
      by_cases hn : n ≤ ((out.length : Int))
      · rw [if_pos hn]
      · rw [if_neg hn]; exact ih _ h

theorem fbLoop_length_le (n : Int) :
    ∀ (cands out : List String), (out.length : Int) < n →
      ((Main.fbLoop n cands out).length : Int) ≤ n := by
  intro cands
  induction cands with
  | nil => intro out h; simp only [Main.fbLoop]; omega
  | cons s rest ih =>
    intro out h
    simp only [Main.fbLoop]
    by_cases hc : pyStrip s ≠ "" ∧ pyStrip s ∉ out
    · rw [if_pos hc]
      have hlen : ((out ++ [pyStrip s]).length : Int) ≤ n := by
        simp only [List.length_append, List.length_singleton]
        push_cast
        omega
      by_cases hn : n ≤ ((out ++ [pyStrip s]).length : Int)
      · rw [if_pos hn]; exact hlen
      · rw [if_neg hn]; exact ih _ (by omega)
    · rw [if_neg hc]
      by_cases hn : n ≤ ((out.length : Int))
      · rw [if_pos hn]; omega
      · rw [if_neg hn]; exact ih _ (by omega)


theorem gqv_characterization (query : String) (n : Int) :
    ∃ rest : List String,
      Tools.generate_query_variants query n = pyTake n (query :: rest) ∧
      (query :: rest).Nodup := by
  simp only [Tools.generate_query_variants]
  split_ifs with h1 h2 h2
  · refine ⟨[pyStrip (pyUpper query)], by simp, ?_⟩
    simp only [List.mem_singleton] at h2
    simp [List.nodup_cons]
    exact fun heq => h2.1 heq.symm
  · exact ⟨[], rfl, by simp⟩
  · refine ⟨[pyStrip (pyLower query), pyStrip (pyUpper query)], by simp, ?_⟩
    simp only [List.mem_singleton] at h1
    simp only [List.mem_append, List.mem_singleton] at h2
    simp [List.nodup_cons]
    refine ⟨⟨fun heq => h1 heq.symm, fun heq => h2.1 (Or.inl heq.symm)⟩, ?_⟩
    exact fun heq => h2.1 (Or.inr heq.symm)
  · refine ⟨[pyStrip (pyLower query)], by simp, ?_⟩
    simp only [List.mem_singleton] at h1
    simp [List.nodup_cons]
    exact fun heq => h1 heq.symm

/-- C7 counterexample. The query expansion of `main.py` returns the empty
sequence on the empty query (with the generation model unavailable and
`n = 4 ≥ 1`), refuting "returns an ordered sequence ... that is never empty,
whose element 0 is the verbatim input query" as universally stated. -/
theorem claim_C7_counterexample :
    Main.generate_llm_variants none "" 4 = [] := rfl

/-- C7 (amended). For every query and every `n ≥ 1`: the tool-side expander
`_generate_query_variants` returns at most `n` strings, is never empty, has
the verbatim query as element 0 and contains no duplicates; the main-module
expander with the generation model unavailable never raises — it equals the
deterministic fallback `_fallback_variants`, which guarantees the same
bounds only when the stripped query is non-empty, with element 0 the
stripped (not verbatim) query — while a whitespace-only query instead yields
the empty sequence (see the counterexample). The hypothesis
`pyStrip (pyStrip question) = pyStrip question` is idempotency of stripping,
true of every string. -/
theorem claim_C7 (query question : String) (n : Int) (hn : 1 ≤ n)
    (hq : pyStrip question ≠ "")
    (hqt : pyStrip (pyStrip question) = pyStrip question) :
    (Tools.generate_query_variants query n ≠ [] ∧
     (Tools.generate_query_variants query n).head? = some query ∧
     ((Tools.generate_query_variants query n).length : Int) ≤ n ∧
     (Tools.generate_query_variants query n).Nodup) ∧
    (Main.generate_llm_variants none question n = Main.fallback_variants question n ∧
     Main.fallback_variants question n ≠ [] ∧
     (Main.fallback_variants question n).head? = some (pyStrip question) ∧
     ((Main.fallback_variants question n).length : Int) ≤ n ∧
     (Main.fallback_variants question n).Nodup) := by
  have hn0 : 0 ≤ n := le_trans (by norm_num) hn
  constructor
  · obtain ⟨rest, hres, hnd⟩ := gqv_characterization query n
    have htake : pyTake n (query :: rest) = query :: (rest.take (n.toNat - 1)) := by
      rw [pyTake_of_nonneg _ _ hn0]
      cases hnn : n.toNat with
      | zero => omega
      | succ m => simp
    refine ⟨?_, ?_, ?_, ?_⟩
    · rw [hres, htake]; simp
    · rw [hres, htake]; simp
    · rw [hres, pyTake_of_nonneg _ _ hn0]
      have := List.length_take_le n.toNat (query :: rest)
      omega
    · rw [hres, pyTake_of_nonneg _ _ hn0]
      exact hnd.sublist (List.take_sublist _ _)
  · have hq' : ¬(question = "" ∨ pyStrip question = "") := by
      rintro (rfl | hc)
      · exact hq (by rfl)
      · exact hq hc
    have hstep : Main.fallback_variants question n =
        if n ≤ 1 then [pyStrip question]
        else Main.fbLoop n [pyLower (pyStrip question), pyUpper (pyStrip question)]
          [pyStrip question] := by
      simp only [Main.fallback_variants, List.singleton_append, Main.fbLoop, hqt]
      rw [if_pos (⟨hq, by simp⟩ : pyStrip question ≠ "" ∧
        pyStrip question ∉ ([] : List String))]
      simp
    refine ⟨by simp [Main.generate_llm_variants, hq'], ?_, ?_, ?_, ?_⟩ <;> rw [hstep]
    · by_cases hn1 : n ≤ 1
      · simp [hn1]
      · rw [if_neg hn1]
        exact fbLoop_ne_nil n _ _ (by simp)
    · by_cases hn1 : n ≤ 1
      · simp [hn1]
      · rw [if_neg hn1]
        rw [fbLoop_head n _ _ (by simp)]
        simp
    · by_cases hn1 : n ≤ 1
      · simp [hn1]; omega
      · rw [if_neg hn1]
        refine fbLoop_length_le n _ _ ?_
        simp
        omega
    · by_cases hn1 : n ≤ 1
      · simp [hn1]
      · rw [if_neg hn1]
        exact fbLoop_nodup n _ _ (by simp)

/-- Witness for C7 at a concrete query with surrounding whitespace and
`n = 3`. -/
theorem claim_C7_witness :
    (Tools.generate_query_variants " Hello " 3 ≠ [] ∧
     (Tools.generate_query_variants " Hello " 3).head? = some " Hello " ∧
     ((Tools.generate_query_variants " Hello " 3).length : Int) ≤ 3 ∧
     (Tools.generate_query_variants " Hello " 3).Nodup) ∧
    (Main.generate_llm_variants none " Hello " 3 = Main.fallback_variants " Hello " 3 ∧
     Main.fallback_variants " Hello " 3 ≠ [] ∧
     (Main.fallback_variants " Hello " 3).head? = some (pyStrip " Hello ") ∧
     ((Main.fallback_variants " Hello " 3).length : Int) ≤ 3 ∧
     (Main.fallback_variants " Hello " 3).Nodup) :=
  claim_C7 " Hello " " Hello " 3 (by norm_num) (by decide) (by decide)

/-- Concrete retriever family returning two distinct passages for every
query, fan-out and namespace. -/
def rPairF : Int → String → String → Except Unit (List Passage) :=
  fun _ _ _ => .ok [pA, pB]

/-- Unfolding of the `none` branch of `main.retrieve_union` (the method
string resolves and lower-cases to "none" by computation). -/
theorem retrieve_union_none (h : String → Int)
    (retrieverF : Int → String → String → Except Unit (List Passage))
    (emb : Embedder) (getCE : Except Unit CEModel) (norm : List ℚ → ℚ)
    (queries : List String) (k : Int) (nspace : String) (rtk : Option Int) :
    Main.retrieve_union h retrieverF emb getCE norm queries k nspace
        (some "none") rtk =
      .ok (if pyOrInt rtk k ≠ 0 ∧
             pyOrInt rtk k < ((collectUnion h (retrieverF k nspace) queries []).length : Int)
           then pyTake (pyOrInt rtk k) (collectUnion h (retrieverF k nspace) queries [])
           else collectUnion h (retrieverF k nspace) queries []) := rfl

/-- C5 counterexample. With two collected passages, `k = 1` and
`rerank_top_k` unset (falsy), `retrieve_union` under the `none` method
returns only the first `k = 1` collected passages, not all collected
passages as the claim states; the claim also fails at `m = 0` for the same
reason (`0` is falsy and resolves to `k`). -/
theorem claim_C5_counterexample :
    collectUnion hLen (rPairF 1 "ns") ["a"] [] = [pA, pB] ∧
    Main.retrieve_union hLen rPairF embFail (.error ()) normZero
      ["a"] 1 "ns" (some "none") none = .ok [pA] ∧
    ([pA] : List Passage) ≠ [pA, pB] :=
  ⟨by decide, rfl, by decide⟩

/-- C5 (amended). For a fixed collected passage sequence (any hash,
retriever family, queries, `k`, namespace): `retrieve_union` with
`rerank_method = "none"` and `rerank_top_k = m` returns exactly the first
`m` collected passages in collection order for every `1 ≤ m ≤ len(collected)`
(no reordering); when `rerank_top_k` is falsy (`None` or `0`) it is resolved
to `k`, so the first `k` collected passages are returned — all of them only
when at most `k` were collected. -/
theorem claim_C5 (h : String → Int)
    (retrieverF : Int → String → String → Except Unit (List Passage))
    (emb : Embedder) (getCE : Except Unit CEModel) (norm : List ℚ → ℚ)
    (queries : List String) (k : Int) (nspace : String) :
    (∀ m : Int, 1 ≤ m →
       m ≤ ((collectUnion h (retrieverF k nspace) queries []).length : Int) →
       Main.retrieve_union h retrieverF emb getCE norm queries k nspace
           (some "none") (some m) =
         .ok ((collectUnion h (retrieverF k nspace) queries []).take m.toNat)) ∧
    (∀ rtk : Option Int, (rtk = none ∨ rtk = some 0) → 1 ≤ k →
       Main.retrieve_union h retrieverF emb getCE norm queries k nspace
           (some "none") rtk =
         .ok ((collectUnion h (retrieverF k nspace) queries []).take k.toNat)) := by
  constructor
  · intro m hm hmlen
    have hm0 : m ≠ 0 := by omega
    rw [retrieve_union_none]
    have hftk : pyOrInt (some m) k = m := by simp [pyOrInt, hm0]
    rw [hftk]
    by_cases hlt : m < ((collectUnion h (retrieverF k nspace) queries []).length : Int)
    · rw [if_pos ⟨hm0, hlt⟩, pyTake_of_nonneg _ _ (by omega)]
    · rw [if_neg (fun hc => hlt hc.2)]
      have hlen : (collectUnion h (retrieverF k nspace) queries []).length ≤ m.toNat := by
        omega
      rw [List.take_of_length_le hlen]
  · intro rtk hrtk hk
    have hk0 : k ≠ 0 := by omega
    rw [retrieve_union_none]
    have hftk : pyOrInt rtk k = k := by
      rcases hrtk with rfl | rfl
      · rfl
      · simp [pyOrInt]
    rw [hftk]
    by_cases hlt : k < ((collectUnion h (retrieverF k nspace) queries []).length : Int)
    · rw [if_pos ⟨hk0, hlt⟩, pyTake_of_nonneg _ _ (by omega)]
    · rw [if_neg (fun hc => hlt hc.2)]
      have hlen : (collectUnion h (retrieverF k nspace) queries []).length ≤ k.toNat := by
        omega
      rw [List.take_of_length_le hlen]

/-- Witness for C5: both parts at a concrete two-passage collection. -/
theorem claim_C5_witness :
    (Main.retrieve_union hLen rPairF embFail (.error ()) normZero
        ["a"] 1 "ns" (some "none") (some 2) =
      .ok ((collectUnion hLen (rPairF 1 "ns") ["a"] []).take (Int.toNat 2))) ∧
    (Main.retrieve_union hLen rPairF embFail (.error ()) normZero
        ["a"] 1 "ns" (some "none") (some 0) =
      .ok ((collectUnion hLen (rPairF 1 "ns") ["a"] []).take (Int.toNat 1))) :=
  ⟨(claim_C5 hLen rPairF embFail (.error ()) normZero ["a"] 1 "ns").1 2
     (by norm_num) (by decide),
   (claim_C5 hLen rPairF embFail (.error ()) normZero ["a"] 1 "ns").2 (some 0)
     (Or.inr rfl) (by norm_num)⟩

/-! Helper lemmas for the embedding reranker (C4). -/

/-- A passage with its reranking annotations cleared; "the same passage up to
annotation". -/
def stripRerank (d : Passage) : Passage :=
  { d with rerankScore := none, rerankMethod := none }

theorem embedScores_length (norm : List ℚ → ℚ) (qv : List ℚ) (dvs : List (List ℚ)) :
    (Main.embedScores norm qv dvs).length = dvs.length := by
  simp [Main.embedScores]

theorem scoredList_pairwise_idx (norm : List ℚ → ℚ) (qv : List ℚ)
    (dvs : List (List ℚ)) (docs : List Passage) :
    (Main.scoredList norm qv dvs docs).Pairwise (fun a b => a.2.1 < b.2.1) := by
  rw [List.pairwise_iff_get]
  intro i j hij
  have hi := i.isLt
  have hj := j.isLt
  simp only [Main.scoredList, List.length_zip] at hi hj
  simp only [Main.scoredList, List.get_eq_getElem, List.getElem_zip, List.getElem_range]
  exact hij

theorem scoredList_proj (norm : List ℚ → ℚ) (qv : List ℚ) (dvs : List (List ℚ))
    (docs : List Passage) (hlen : dvs.length = docs.length) :
    (Main.scoredList norm qv dvs docs).map (fun sd => sd.2.2) = docs := by
  have h1 : (Main.scoredList norm qv dvs docs).map (fun sd => sd.2.2) =
      (((Main.scoredList norm qv dvs docs).map Prod.snd).map Prod.snd) := by
    simp [List.map_map]
  rw [h1]
  simp only [Main.scoredList]
  rw [List.map_snd_zip]
  · rw [List.map_snd_zip]
    simp
  · rw [List.length_zip, embedScores_length, hlen]
    simp

theorem scoredList_length (norm : List ℚ → ℚ) (qv : List ℚ) (dvs : List (List ℚ))
    (docs : List Passage) (hlen : dvs.length = docs.length) :
    (Main.scoredList norm qv dvs docs).length = docs.length := by
  simp [Main.scoredList, embedScores_length, hlen]

/-- C4. For every embedder run that returns one vector per passage, every
non-empty passage list and every `top_k ≥ 0`, `main.rerank_by_embedding`
returns the annotated image of the first `top_k` entries of a list `sorted`
that is a permutation of the scored passages and is ordered by strictly
descending cosine score with ties broken by ascending original collection
position (stable sort); the output has length `min top_k (len docs)`, is,
up to annotation, a sub-permutation of the input passages (no fabricated
entries), and every output passage carries `rerank_method = "embedding"` and
a `rerank_score` that is a cosine score rounded to 6 decimal digits. -/
theorem claim_C4 (emb : Embedder) (norm : List ℚ → ℚ) (query : String)
    (docs : List Passage) (top_k : Int) (qv : List ℚ) (dvs : List (List ℚ))
    (hq : emb.embedQuery query = .ok qv)
    (hd : emb.embedDocs (docs.map (fun d => d.text)) = .ok dvs)
    (hlen : dvs.length = docs.length)
    (hne : docs ≠ [])
    (htk : 0 ≤ top_k) :
    ∃ sorted : List (ℚ × ℕ × Passage),
      sorted.Perm (Main.scoredList norm qv dvs docs) ∧
      sorted.Pairwise scoreIdxLex ∧
      Main.rerank_by_embedding emb norm query docs (some top_k) =
        .ok ((sorted.take top_k.toNat).map Main.annotEmb) ∧
      ((sorted.take top_k.toNat).map Main.annotEmb).length =
        min top_k.toNat docs.length ∧
      List.Subperm
        (((sorted.take top_k.toNat).map Main.annotEmb).map stripRerank)
        (docs.map stripRerank) ∧
      (∀ d ∈ (sorted.take top_k.toNat).map Main.annotEmb,
         d.rerankMethod = some "embedding" ∧
         ∃ s, d.rerankScore = some (round6 s)) := by
  refine ⟨sortByScoreDesc (Main.scoredList norm qv dvs docs),
    sortByScoreDesc_perm _,
    sortByScoreDesc_stable_lex _ (scoredList_pairwise_idx norm qv dvs docs),
    ?_, ?_, ?_, ?_⟩
  · rw [Main.rerank_by_embedding, if_neg hne, hq, hd]
    simp only [pySlice, pyTake_of_nonneg _ _ htk]
  · rw [List.length_map, List.length_take,
      (sortByScoreDesc_perm (Main.scoredList norm qv dvs docs)).length_eq,
      scoredList_length norm qv dvs docs hlen]
  · have hmm : (((sortByScoreDesc (Main.scoredList norm qv dvs docs)).take
        top_k.toNat).map Main.annotEmb).map stripRerank =
        ((sortByScoreDesc (Main.scoredList norm qv dvs docs)).take
        top_k.toNat).map (fun sd => stripRerank sd.2.2) := by
      rw [List.map_map]
      rfl
    rw [hmm]
    have hsub : List.Sublist
        (((sortByScoreDesc (Main.scoredList norm qv dvs docs)).take
          top_k.toNat).map (fun sd => stripRerank sd.2.2))
        ((sortByScoreDesc (Main.scoredList norm qv dvs docs)).map
          (fun sd => stripRerank sd.2.2)) :=
      (List.take_sublist _ _).map _
    have hperm : ((sortByScoreDesc (Main.scoredList norm qv dvs docs)).map
        (fun sd => stripRerank sd.2.2)).Perm
        ((Main.scoredList norm qv dvs docs).map (fun sd => stripRerank sd.2.2)) :=
      (sortByScoreDesc_perm _).map _
    have hproj : (Main.scoredList norm qv dvs docs).map
        (fun sd => stripRerank sd.2.2) = docs.map stripRerank := by
      have : (fun (sd : ℚ × ℕ × Passage) => stripRerank sd.2.2) =
          stripRerank ∘ (fun sd => sd.2.2) := rfl
      rw [this, ← List.map_map, scoredList_proj norm qv dvs docs hlen]
    exact (hsub.subperm).trans (hproj ▸ hperm.subperm)
  · intro d hd'
    obtain ⟨sd, _, rfl⟩ := List.mem_map.mp hd'
    exact ⟨rfl, sd.1, rfl⟩

/-- Witness for C4: two passages, a concrete embedder and `top_k = 1`. -/
theorem claim_C4_witness :
    ∃ sorted : List (ℚ × ℕ × Passage),
      sorted.Perm (Main.scoredList normZero [1] [[1], [1]] [pA, pB]) ∧
      sorted.Pairwise scoreIdxLex ∧
      Main.rerank_by_embedding embOne normZero "q" [pA, pB] (some 1) =
        .ok ((sorted.take (Int.toNat 1)).map Main.annotEmb) ∧
      ((sorted.take (Int.toNat 1)).map Main.annotEmb).length =
        min (Int.toNat 1) ([pA, pB] : List Passage).length ∧
      List.Subperm
        (((sorted.take (Int.toNat 1)).map Main.annotEmb).map stripRerank)
        (([pA, pB] : List Passage).map stripRerank) ∧
      (∀ d ∈ (sorted.take (Int.toNat 1)).map Main.annotEmb,
         d.rerankMethod = some "embedding" ∧
         ∃ s, d.rerankScore = some (round6 s)) :=
  claim_C4 embOne normZero "q" [pA, pB] 1 [1] [[1], [1]]
    rfl rfl (by decide) (by decide) (by norm_num)

/-! Helper lemmas for `search` (C2, C6, C10). -/

theorem except_map_ok {ε α β : Type} (f : α → β) (e : Except ε α) (b : β)
    (h : Except.map f e = .ok b) : ∃ a, e = .ok a ∧ b = f a := by
  cases e with
  | error e => simp [Except.map] at h
  | ok a =>
    simp [Except.map] at h
    exact ⟨a, rfl, h.symm⟩

theorem collectUnion_all_error (h : String → Int)
    (r : String → Except Unit (List Passage)) (hr : ∀ q, r q = .error ()) :
    ∀ (qs : List String) (seen : List Int), collectUnion h r qs seen = [] := by
  intro qs
  induction qs with
  | nil => intro seen; rfl
  | cons q qs ih => intro seen; simp [collectUnion, hr q, ih]

theorem tools_rerank_emb_length (t : Tools.Tool) (query : String)
    (docs : List Passage) (m : Int) (out : List Passage) (hm : 0 ≤ m)
    (hok : Tools.rerank_by_embedding t query docs (some m) = .ok out) :
    out.length ≤ m.toNat := by
  rw [Tools.rerank_by_embedding] at hok
  by_cases hdocs : docs = []
  · rw [if_pos hdocs] at hok
    simp only [Except.ok.injEq] at hok
    rw [← hok, hdocs]
    simp
  · rw [if_neg hdocs] at hok
    cases hq : t.embedder.embedQuery query with
    | error e => rw [hq] at hok; simp at hok
    | ok qv =>
      rw [hq] at hok
      cases hd : t.embedder.embedDocs (docs.map (fun d => d.text)) with
      | error e => rw [hd] at hok; simp at hok
      | ok dvs =>
        rw [hd] at hok
        simp only [Except.ok.injEq] at hok
        rw [← hok]
        simp only [pySlice, List.length_map]
        exact length_pyTake_le_toNat m _ hm

theorem tools_rerank_ce_length (t : Tools.Tool) (query : String)
    (docs : List Passage) (m : Int) (out : List Passage) (hm : 0 ≤ m)
    (hok : Tools.rerank_by_cross_encoder t query docs (some m) = .ok out) :
    out.length ≤ m.toNat := by
  rw [Tools.rerank_by_cross_encoder] at hok
  by_cases hdocs : docs = []
  · rw [if_pos hdocs] at hok
    simp only [Except.ok.injEq] at hok
    rw [← hok, hdocs]
    simp
  · rw [if_neg hdocs] at hok
    cases hce : (match t.getCE with
        | Except.error e => Except.error e
        | Except.ok m => m (docs.map (fun (d : Passage) => (query, d.text))) :
        Except Unit (List ℚ)) with
    | error e =>
      rw [hce] at hok
      exact tools_rerank_emb_length t query docs m out hm hok
    | ok scores =>
      rw [hce] at hok
      simp only [Except.ok.injEq] at hok
      rw [← hok]
      simp only [pySlice, List.length_map]
      exact length_pyTake_le_toNat m _ hm

/-- Concrete tool in mock mode (no Pinecone key). -/
def mockTool : Tools.Tool :=
  { useMock := true, retrievalK := 2, defaultNamespace := "default",
    retriever := fun _ _ _ => .error (), embedder := embFail,
    getCE := .error (), norm := normZero, hash := hLen }

/-- Concrete non-mock tool whose retriever succeeds with one passage but
whose embedding model raises on every call. -/
def tEmbFail : Tools.Tool :=
  { useMock := false, retrievalK := 2, defaultNamespace := "default",
    retriever := fun _ _ _ => .ok [pA], embedder := embFail,
    getCE := .error (), norm := normZero, hash := hLen }

/-- In mock mode `search` ignores the query, namespace and reranking method
entirely: it returns the first `rerank_top_k` (Python slice) mock documents,
converted to results. -/
theorem search_mock (t : Tools.Tool) (hm : t.useMock = true) (q : String)
    (k : Option Int) (ns : Option String) (rm : String) (rtk : Option Int) :
    Tools.search t q k ns rm rtk =
      .ok ((pyTake (pyOrInt rtk (pyOrInt k t.retrievalK)) Tools.mock_documents).map
        Tools.docToSearchResult) := by
  have hne : Tools.mock_documents ≠ [] := by decide
  simp [Tools.search, Tools.retrieve_with_variants, hm, hne, Except.map]

/-- C10 counterexample. In mock mode with caller-supplied
`rerank_top_k = -1` (an allowed int), `search` returns the first 1 mock
entry (Python's `docs[:-1]` drops the last element), whereas the claim's
"first `min(rerank_top_k, 2)` entries" denotes the empty sequence for a
negative count — so the claimed shape of the result is refuted, although
query-independence itself still holds. -/
theorem claim_C10_counterexample :
    Tools.search mockTool "a" none none "x" (some (-1)) =
      .ok ((Tools.mock_documents.map Tools.docToSearchResult).take 1) ∧
    (Tools.mock_documents.map Tools.docToSearchResult).take 1 ≠
      (Tools.mock_documents.map Tools.docToSearchResult).take
        ((min (-1 : Int) 2).toNat) := by
  exact ⟨rfl, by decide⟩

/-- C10 (amended). In mock mode `search` is query-independent: any two calls
with arbitrary query texts, namespaces and rerank methods but the same
effective `rerank_top_k` return the identical result sequence; when the
effective `rerank_top_k` is non-negative that sequence is the first
`min(rerank_top_k, 2)` entries of the fixed built-in mock corpus in its
fixed order (a negative value instead drops trailing entries, Python slice
semantics — see the counterexample). -/
theorem claim_C10 (t : Tools.Tool) (q1 q2 : String) (k1 k2 : Option Int)
    (ns1 ns2 : Option String) (rm1 rm2 : String) (rtk1 rtk2 : Option Int)
    (hm : t.useMock = true)
    (he : pyOrInt rtk1 (pyOrInt k1 t.retrievalK) =
          pyOrInt rtk2 (pyOrInt k2 t.retrievalK)) :
    Tools.search t q1 k1 ns1 rm1 rtk1 = Tools.search t q2 k2 ns2 rm2 rtk2 ∧
    (0 ≤ pyOrInt rtk1 (pyOrInt k1 t.retrievalK) →
      Tools.search t q1 k1 ns1 rm1 rtk1 =
        .ok ((Tools.mock_documents.map Tools.docToSearchResult).take
          (min (pyOrInt rtk1 (pyOrInt k1 t.retrievalK)).toNat 2))) := by
  constructor
  · rw [search_mock t hm, search_mock t hm, he]
  · intro h0
    rw [search_mock t hm, pyTake_of_nonneg _ _ h0, ← List.map_take]
    have hlen2 : Tools.mock_documents.length = 2 := by decide
    have htt : Tools.mock_documents.take (pyOrInt rtk1 (pyOrInt k1 t.retrievalK)).toNat =
        Tools.mock_documents.take
          (min (pyOrInt rtk1 (pyOrInt k1 t.retrievalK)).toNat 2) := by
      rw [List.take_eq_take, hlen2]
      omega
    rw [htt]

/-- Witness for C10: two mock-mode calls with different queries, namespaces,
methods and fan-outs but the same effective `rerank_top_k = 1`. -/
theorem claim_C10_witness :
    (Tools.search mockTool "weather" (some 5) (some "ns1") "embedding" (some 1) =
     Tools.search mockTool "vacation" none (some "ns2") "none" (some 1)) ∧
    (0 ≤ pyOrInt (some 1) (pyOrInt (some 5) mockTool.retrievalK) →
      Tools.search mockTool "weather" (some 5) (some "ns1") "embedding" (some 1) =
        .ok ((Tools.mock_documents.map Tools.docToSearchResult).take
          (min (pyOrInt (some 1) (pyOrInt (some 5) mockTool.retrievalK)).toNat 2))) :=
  claim_C10 mockTool "weather" "vacation" (some 5) none (some "ns1") (some "ns2")
    "embedding" "none" (some 1) (some 1) rfl (by decide)

/-- C6 counterexample. With caller-supplied `rerank_top_k = -1` (negative,
hence non-positive) and `k = 5`, the effective `rerank_top_k` computed by
`search` (`rerank_top_k or k`) is `-1`, not `k = 5` as the claim states —
only `None` and `0` are falsy in Python — and the mock call then returns 1
result, which exceeds the negative effective value. -/
theorem claim_C6_counterexample :
    pyOrInt (some (-1)) (pyOrInt (some 5) mockTool.retrievalK) = -1 ∧
    ((-1 : Int) ≠ 5) ∧
    Tools.search mockTool "q" (some 5) none "none" (some (-1)) =
      .ok ((Tools.mock_documents.map Tools.docToSearchResult).take 1) := by
  exact ⟨rfl, by decide, rfl⟩

/-- C6 (amended). The effective `rerank_top_k` used by `search` equals the
effective `k` exactly when the caller-supplied value is absent or zero (the
falsy values); a negative value is used verbatim. Whenever the effective
`rerank_top_k` is non-negative, the number of returned results never
exceeds it, on every branch of the pipeline. -/
theorem claim_C6 :
    (∀ (rtk : Option Int) (d : Int),
       (rtk = none ∨ rtk = some 0) → pyOrInt rtk d = d) ∧
    (∀ (t : Tools.Tool) (query : String) (k : Option Int) (nspace : Option String)
       (rm : String) (rtk : Option Int) (rs : List SearchResult),
       Tools.search t query k nspace rm rtk = .ok rs →
       0 ≤ pyOrInt rtk (pyOrInt k t.retrievalK) →
       rs.length ≤ (pyOrInt rtk (pyOrInt k t.retrievalK)).toNat) := by
  constructor
  · intro rtk d hrtk
    rcases hrtk with rfl | rfl
    · rfl
    · simp [pyOrInt]
  · intro t query k nspace rm rtk rs hok h0
    simp only [Tools.search] at hok
    by_cases hdocs : Tools.retrieve_with_variants t (Tools.generate_query_variants query 3)
        (pyOrInt k t.retrievalK) (pyOrStr nspace (pyOrStrS t.defaultNamespace "default")) = []
    · rw [if_pos hdocs] at hok
      simp only [Except.ok.injEq] at hok
      rw [← hok]
      simp
    · rw [if_neg hdocs] at hok
      by_cases hmock : t.useMock = true
      · simp only [hmock, if_true] at hok
        obtain ⟨ds, hds, rfl⟩ := except_map_ok _ _ _ hok
        simp only [Except.ok.injEq] at hds
        rw [← hds]
        simp only [List.length_map]
        exact length_pyTake_le_toNat _ _ h0
      · have hmock' : t.useMock = false := by
          cases hu : t.useMock
          · rfl
          · exact absurd hu hmock
        simp only [hmock', Bool.false_eq_true, if_false] at hok
        by_cases hcr : pyLower rm = "cross-encoder"
        · rw [if_pos hcr] at hok
          obtain ⟨ds, hds, rfl⟩ := except_map_ok _ _ _ hok
          simp only [List.length_map]
          exact tools_rerank_ce_length t query _ _ ds h0 hds
        · rw [if_neg hcr] at hok
          by_cases hem : pyLower rm = "embedding"
          · rw [if_pos hem] at hok
            obtain ⟨ds, hds, rfl⟩ := except_map_ok _ _ _ hok
            simp only [List.length_map]
            exact tools_rerank_emb_length t query _ _ ds h0 hds
          · rw [if_neg hem] at hok
            obtain ⟨ds, hds, rfl⟩ := except_map_ok _ _ _ hok
            simp only [Except.ok.injEq] at hds
            rw [← hds]
            simp only [List.length_map]
            exact length_pyTake_le_toNat _ _ h0

/-- Witness for C6: the falsy resolution at `rerank_top_k = some 0`, and the
length bound on a concrete mock call returning 2 of a maximum 3 results. -/
theorem claim_C6_witness :
    pyOrInt (some 0) 7 = 7 ∧
    (Tools.mock_documents.map Tools.docToSearchResult).length ≤
      (pyOrInt (some 3) (pyOrInt none mockTool.retrievalK)).toNat :=
  ⟨claim_C6.1 (some 0) 7 (Or.inr rfl),
   claim_C6.2 mockTool "q" none none "none" (some 3)
     (Tools.mock_documents.map Tools.docToSearchResult) rfl (by decide)⟩

/-- C2 counterexample. A non-mock tool whose retriever succeeds but whose
embedding model raises: `search(..., rerank_method="embedding")` propagates
the exception (`Except.error ()`) instead of catching it and returning the
empty result sequence — `search` has no enclosing `try`/`except`. -/
theorem claim_C2_counterexample :
    Tools.search tEmbFail "q" none none "embedding" none = .error () := rfl

/-- C2 (amended). No exception escapes `search` as long as no reranking
scorer is invoked: per-variant retrieval failures are isolated (a retriever
that raises on every variant yields the empty result sequence, returned as a
success), mock mode always succeeds, and any rerank method other than
"embedding"/"cross-encoder" always succeeds. An internal error while
computing embeddings during reranking, however, propagates to the caller
(see the counterexample). -/
theorem claim_C2 (t : Tools.Tool) (query : String) (k : Option Int)
    (nspace : Option String) (rm : String) (rtk : Option Int)
    (hcond : t.useMock = true ∨
      (pyLower rm ≠ "cross-encoder" ∧ pyLower rm ≠ "embedding") ∨
      (∀ k' ns' q, t.retriever k' ns' q = .error ())) :
    ∃ rs, Tools.search t query k nspace rm rtk = .ok rs := by
  by_cases hmock : t.useMock = true
  · exact ⟨_, search_mock t hmock query k nspace rm rtk⟩
  · have hmock' : t.useMock = false := by
      cases hu : t.useMock
      · rfl
      · exact absurd hu hmock
    simp only [Tools.search]
    by_cases hdocs : Tools.retrieve_with_variants t (Tools.generate_query_variants query 3)
        (pyOrInt k t.retrievalK) (pyOrStr nspace (pyOrStrS t.defaultNamespace "default")) = []
    · rw [if_pos hdocs]
      exact ⟨[], rfl⟩
    · rw [if_neg hdocs]
      rcases hcond with hc | hc | hc
      · exact absurd hc hmock
      · simp only [hmock', Bool.false_eq_true, if_false, if_neg hc.1, if_neg hc.2]
        exact ⟨_, rfl⟩
      · exfalso
        apply hdocs
        simp only [Tools.retrieve_with_variants, hmock', Bool.false_eq_true, if_false]
        exact collectUnion_all_error t.hash _ (fun q => hc _ _ q) _ []

/-- Witness for C2: a non-mock tool with an always-raising embedder still
returns a success under the `none` method. -/
theorem claim_C2_witness :
    ∃ rs, Tools.search tEmbFail "q" none none "none" none = .ok rs :=
  claim_C2 tEmbFail "q" none none "none" none (Or.inr (Or.inl (by decide)))
